import Mathlib

/- Verification of moz-idb-edit (mozidbedit/__init__.py): the storage-origin
   key codec, the identifier resolvers, and the cycle-safe structured pretty
   printer, shallowly embedded as executable Lean definitions. -/

namespace Mze

/-- Python strings are modelled as lists of characters. -/
abbrev Str := List Char

/-- Python `s.replace(a, b)` for a single-character pattern `a` and a
single-character replacement `b` (the only shape the program uses). -/
def replChar (a b : Char) (s : Str) : Str :=
  s.map (fun c => if c = a then b else c)

/-- Python `s.startswith(p)`: does `p` occur as a leading segment of `s`? -/
def startsWith : Str → Str → Bool
  | [], _ => true
  | _ :: _, [] => false
  | p :: ps, c :: cs => p = c && startsWith ps cs

/-- Python `s.split(sep, 1)` in the case where `sep` occurs in `s`: the part
before the first occurrence of `sep`, and the part after it.  `none` models
the case where `sep` does not occur (`sep in s` is false). -/
def splitOnFirst (sep : Str) : Str → Option (Str × Str)
  | [] => none
  | c :: cs =>
    if startsWith sep (c :: cs) then some ([], (c :: cs).drop sep.length)
    else
      match splitOnFirst sep cs with
      | some (a, b) => some (c :: a, b)
      | none => none

/-- Python `sep.join(parts)`. -/
def joinSep (sep : Str) : List Str → Str
  | [] => []
  | [s] => s
  | s :: s2 :: rest => s ++ sep ++ joinSep sep (s2 :: rest)

/-- The decimal digit characters used by Python `str(n)` / `int(s)`. -/
def digitChar : Nat → Char
  | 0 => '0' | 1 => '1' | 2 => '2' | 3 => '3' | 4 => '4'
  | 5 => '5' | 6 => '6' | 7 => '7' | 8 => '8' | 9 => '9'
  | _ => '*'

def natToStrAux : Nat → Nat → Str
  | 0, _ => []
  | f + 1, n =>
    if n < 10 then [digitChar n]
    else natToStrAux f (n / 10) ++ [digitChar (n % 10)]

/-- Decimal rendering of a natural number, as Python string formatting
produces for a non-negative `int` (the fuel argument of the auxiliary
function is generous enough for every input). -/
def natToStr (n : Nat) : Str := natToStrAux (n + 1) n

def parseDigit (c : Char) : Option Nat :=
  if c = '0' then some 0 else if c = '1' then some 1 else if c = '2' then some 2
  else if c = '3' then some 3 else if c = '4' then some 4 else if c = '5' then some 5
  else if c = '6' then some 6 else if c = '7' then some 7 else if c = '8' then some 8
  else if c = '9' then some 9 else none

def parseNatAux (acc : Nat) : Str → Option Nat
  | [] => some acc
  | c :: cs =>
    match parseDigit c with
    | some d => parseNatAux (10 * acc + d) cs
    | none => none

/-- Python `int(s)` on the digit strings the codec produces: a non-empty
string of decimal digits parses to the number it denotes, anything else is a
`ValueError`, modelled as `none`.  (The full `int()` grammar also allows
signs and surrounding whitespace; the codec never produces those.) -/
def parseNat : Str → Option Nat
  | [] => none
  | c :: cs => parseNatAux 0 (c :: cs)

/-! ## Origin key codec (lines 380-387, 409-427, 441-443 of __init__.py) -/

/-- The `"^userContextId="` marker used at lines 384, 410-411 and 443. -/
def ucidSep : Str := ("^userContextId=").data

/-- Origin-directory encoding, from lines 441-443: the site string
`"<scheme>://<host>"` (the exact shape the program itself prints for a site
at line 427) has every `':'` and then every `'/'` replaced by `'+'`, and,
when the container id is present and non-zero, `"^userContextId=<id>"` is
appended. -/
def encode (scheme host : Str) (containerId : Option Nat) : Str :=
  let site := scheme ++ ("://").data ++ host
  let body := replChar '/' '+' (replChar ':' '+' site)
  match containerId with
  | some n => if n ≠ 0 then body ++ ucidSep ++ natToStr n else body
  | none => body

/-- Origin-directory decoding, from lines 409-427: split on the first
`"^userContextId="` to recover the container id, split the remainder on the
first `"+++"` into scheme and encoded host, and undo the character
substitution (`'+'` becomes `'/'` for scheme `file`, else `':'`).  A missing
`"+++"` separator is a decode failure (`none`), as is a non-numeric
container-id suffix (at line 413-415 the program keeps such directory names
only for display; as a key decoder this is a failure). -/
def decode (name : Str) : Option (Str × Str × Option Nat) :=
  let split1 :=
    match splitOnFirst ucidSep name with
    | some (a, b) => (a, some b)
    | none => (name, none)
  let body := split1.1
  let ctx? : Option (Option Nat) :=
    match split1.2 with
    | none => some none
    | some digits =>
      match parseNat digits with
      | some n => some (some n)
      | none => none
  match ctx? with
  | none => none
  | some cid =>
    match splitOnFirst (("+++").data) body with
    | none => none
    | some (scheme, netloc) =>
      if scheme = ("file").data then some (scheme, replChar '+' '/' netloc, cid)
      else some (scheme, replChar '+' ':' netloc, cid)

/-! ### Codec lemmas -/

theorem replChar_append (a b : Char) (s t : Str) :
    replChar a b (s ++ t) = replChar a b s ++ replChar a b t :=
  List.map_append _ s t

theorem replChar_id (a b : Char) (s : Str) (h : a ∉ s) : replChar a b s = s := by
  induction s with
  | nil => rfl
  | cons c cs ih =>
    simp only [replChar, List.map_cons]
    have hca : c ≠ a := by
      intro hc; exact h (hc ▸ List.mem_cons_self c cs)
    rw [if_neg hca]
    have : a ∉ cs := fun hm => h (List.mem_cons_of_mem _ hm)
    have := ih this
    simp only [replChar] at this
    rw [this]

theorem mem_replChar {c : Char} (a b : Char) (s : Str) (h : c ∈ replChar a b s) :
    c ∈ s ∨ c = b := by
  simp only [replChar, List.mem_map] at h
  obtain ⟨x, hx, hxc⟩ := h
  by_cases hxa : x = a
  · right; rw [hxa] at hxc; simpa using hxc.symm
  · left; simp only [if_neg hxa] at hxc; exact hxc ▸ hx

theorem replChar_undo (a b : Char) (s : Str) (hb : b ∉ s) :
    replChar b a (replChar a b s) = s := by
  induction s with
  | nil => rfl
  | cons c cs ih =>
    have hcb : c ≠ b := by
      intro hc; exact hb (hc ▸ List.mem_cons_self c cs)
    have htail : b ∉ cs := fun hm => hb (List.mem_cons_of_mem _ hm)
    simp only [replChar, List.map_cons] at *
    by_cases hca : c = a
    · rw [if_pos hca, if_pos rfl, ih htail, hca]
    · rw [if_neg hca, if_neg hcb, ih htail]

theorem startsWith_append_self (p t : Str) : startsWith p (p ++ t) = true := by
  induction p with
  | nil => rfl
  | cons c cs ih => simp [startsWith, ih]

theorem drop_length_append (p t : Str) : (p ++ t).drop p.length = t := by
  induction p with
  | nil => rfl
  | cons c cs ih =>
    simp only [List.cons_append, List.length_cons, List.drop_succ_cons]
    exact ih

theorem splitOnFirst_none (d : Char) (sep' s : Str) (h : d ∉ s) :
    splitOnFirst (d :: sep') s = none := by
  induction s with
  | nil => rfl
  | cons c cs ih =>
    have hdc : d ≠ c := by
      intro hd; exact h (hd ▸ List.mem_cons_self c cs)
    have htail : d ∉ cs := fun hm => h (List.mem_cons_of_mem _ hm)
    simp only [splitOnFirst, startsWith, decide_eq_false hdc, Bool.false_and,
      Bool.false_eq_true, if_false, ih htail]

theorem splitOnFirst_boundary (d : Char) (sep' a b : Str) (ha : d ∉ a) :
    splitOnFirst (d :: sep') (a ++ (d :: sep') ++ b) = some (a, b) := by
  induction a with
  | nil =>
    have h1 : startsWith (d :: sep') (d :: (sep' ++ b)) = true := by
      have := startsWith_append_self (d :: sep') b
      simpa using this
    simp only [List.nil_append, List.cons_append, splitOnFirst, List.append_eq]
    rw [if_pos h1]
    simp [drop_length_append]
  | cons c cs ih =>
    have hdc : d ≠ c := by
      intro hd; exact ha (hd ▸ List.mem_cons_self c cs)
    have htail : d ∉ cs := fun hm => ha (List.mem_cons_of_mem _ hm)
    have ihh := ih htail
    simp only [List.cons_append] at ihh ⊢
    simp only [splitOnFirst, startsWith, decide_eq_false hdc, Bool.false_and,
      Bool.false_eq_true, if_false, ihh]

theorem parseNatAux_append (acc : Nat) (xs ys : Str) :
    parseNatAux acc (xs ++ ys) =
      match parseNatAux acc xs with
      | some m => parseNatAux m ys
      | none => none := by
  induction xs generalizing acc with
  | nil => simp [parseNatAux]
  | cons c cs ih =>
    simp only [List.cons_append, parseNatAux]
    cases parseDigit c with
    | some d => simp [ih]
    | none => rfl

theorem parseDigit_digitChar (d : Nat) (h : d < 10) :
    parseDigit (digitChar d) = some d := by
  interval_cases d <;> rfl

theorem natToStrAux_ne_nil (f n : Nat) (h : 0 < f) : natToStrAux f n ≠ [] := by
  cases f with
  | zero => omega
  | succ f' =>
    simp only [natToStrAux]
    by_cases hn : n < 10
    · simp [hn]
    · simp [hn]

theorem parseNatAux_natToStrAux (f : Nat) :
    ∀ n acc, n < f →
      parseNatAux acc (natToStrAux f n) =
        some (acc * 10 ^ (natToStrAux f n).length + n) := by
  induction f with
  | zero => intro n acc h; omega
  | succ f' ih =>
    intro n acc h
    simp only [natToStrAux]
    by_cases hn : n < 10
    · simp only [if_pos hn, parseNatAux, parseDigit_digitChar n hn]
      simp [parseNatAux]
      omega
    · simp only [if_neg hn]
      have hd : n / 10 < f' := by
        have h1 : n / 10 < n := Nat.div_lt_self (by omega) (by omega)
        omega
      rw [parseNatAux_append]
      rw [ih (n / 10) acc hd]
      simp only [parseNatAux, parseDigit_digitChar (n % 10) (Nat.mod_lt n (by omega))]
      simp only [parseNatAux, List.length_append, List.length_singleton]
      congr 1
      have hmod : 10 * (n / 10) + n % 10 = n := by omega
      rw [pow_succ]
      ring_nf
      omega

theorem parseNat_natToStr (n : Nat) : parseNat (natToStr n) = some n := by
  unfold natToStr
  have hne := natToStrAux_ne_nil (n + 1) n (by omega)
  have hmain := parseNatAux_natToStrAux (n + 1) n 0 (by omega)
  cases heq : natToStrAux (n + 1) n with
  | nil => exact absurd heq hne
  | cons c cs =>
    rw [heq] at hmain
    simp only [parseNat]
    rw [hmain]
    simp

/-- Decomposition of the encoded body: when the scheme contains neither `':'`
nor `'/'`, the character substitution turns `"<scheme>://<host>"` into
`"<scheme>+++<host-enc>"`. -/
theorem encode_body (scheme host : Str) (h1 : ':' ∉ scheme) (h2 : '/' ∉ scheme) :
    replChar '/' '+' (replChar ':' '+' (scheme ++ ("://").data ++ host))
      = scheme ++ ('+' :: ("++").data) ++ replChar '/' '+' (replChar ':' '+' host) := by
  rw [replChar_append, replChar_append, replChar_append, replChar_append]
  rw [replChar_id ':' '+' scheme h1]
  rw [replChar_id '/' '+' scheme h2]
  rfl

theorem hat_not_mem_hostEnc (host : Str) (hh : '^' ∉ host) :
    '^' ∉ replChar '/' '+' (replChar ':' '+' host) := by
  intro hmem
  rcases mem_replChar '/' '+' _ hmem with h | h
  · rcases mem_replChar ':' '+' _ h with h' | h'
    · exact hh h'
    · exact absurd h' (by decide)
  · exact absurd h (by decide)

/-- The undone substitution step of `decode` recovers the host whenever the
host avoids `'+'` and, depending on the scheme, the character that would be
conflated (`':'` for `file`, `'/'` for every other scheme). -/
theorem hostEnc_undo (scheme host : Str) (hh1 : '+' ∉ host)
    (hfile : scheme = ("file").data → ':' ∉ host)
    (hnot : scheme ≠ ("file").data → '/' ∉ host) :
    (if scheme = ("file").data
      then replChar '+' '/' (replChar '/' '+' (replChar ':' '+' host))
      else replChar '+' ':' (replChar '/' '+' (replChar ':' '+' host))) = host := by
  by_cases hf : scheme = ("file").data
  · rw [if_pos hf]
    rw [replChar_id ':' '+' host (hfile hf)]
    exact replChar_undo '/' '+' host hh1
  · rw [if_neg hf]
    have hslash : '/' ∉ replChar ':' '+' host := by
      intro hmem
      rcases mem_replChar ':' '+' _ hmem with h | h
      · exact hnot hf h
      · exact absurd h (by decide)
    rw [replChar_id '/' '+' _ hslash]
    exact replChar_undo ':' '+' host hh1

/-- C1 (amended): `decode` inverts `encode` for all origin keys whose scheme
contains none of `':'`, `'/'`, `'+'`, `'^'`, whose host contains neither
`'+'` nor `'^'` and avoids `'/'` (for non-`file` schemes) resp. `':'` (for
`file`), and whose container id is not literally `0` (the program encodes a
zero container id exactly like an absent one, so `0` cannot round-trip). -/
theorem C1_codec_roundtrip (scheme host : Str) (cid : Option Nat)
    (hs1 : ':' ∉ scheme) (hs2 : '/' ∉ scheme) (hs3 : '+' ∉ scheme) (hs4 : '^' ∉ scheme)
    (hh1 : '+' ∉ host) (hh2 : '^' ∉ host)
    (hfile : scheme = ("file").data → ':' ∉ host)
    (hnot : scheme ≠ ("file").data → '/' ∉ host)
    (hc0 : cid ≠ some 0) :
    decode (encode scheme host cid) = some (scheme, host, cid) := by
  have hbody := encode_body scheme host hs1 hs2
  have hhatbody : '^' ∉ replChar '/' '+' (replChar ':' '+' (scheme ++ ("://").data ++ host)) := by
    rw [hbody]
    intro hmem
    rcases List.mem_append.mp hmem with hmem' | hmem'
    · rcases List.mem_append.mp hmem' with hmem'' | hmem''
      · exact hs4 hmem''
      · exact absurd hmem'' (by decide)
    · exact hat_not_mem_hostEnc host hh2 hmem'
  have hsplit3 : splitOnFirst (("+++").data)
      (replChar '/' '+' (replChar ':' '+' (scheme ++ ("://").data ++ host)))
      = some (scheme, replChar '/' '+' (replChar ':' '+' host)) := by
    rw [hbody]
    exact splitOnFirst_boundary '+' (("++").data) scheme _ hs3
  have hrec := hostEnc_undo scheme host hh1 hfile hnot
  cases cid with
  | none =>
    have hsplitU : splitOnFirst ucidSep
        (replChar '/' '+' (replChar ':' '+' (scheme ++ ("://").data ++ host))) = none :=
      splitOnFirst_none '^' (("userContextId=").data) _ hhatbody
    show decode (replChar '/' '+' (replChar ':' '+' (scheme ++ ("://").data ++ host)))
        = some (scheme, host, none)
    unfold decode
    rw [hsplitU]
    dsimp only
    rw [hsplit3]
    dsimp only
    by_cases hf : scheme = ("file").data
    · rw [if_pos hf] at hrec
      rw [if_pos (show scheme = ['f', 'i', 'l', 'e'] from hf), hrec]
    · rw [if_neg hf] at hrec
      rw [if_neg (show ¬scheme = ['f', 'i', 'l', 'e'] from hf), hrec]
  | some n =>
    have hn : n ≠ 0 := by
      intro h0; exact hc0 (by rw [h0])
    show decode (encode scheme host (some n)) = some (scheme, host, some n)
    have henc : encode scheme host (some n)
        = replChar '/' '+' (replChar ':' '+' (scheme ++ ("://").data ++ host))
          ++ ucidSep ++ natToStr n := by
      unfold encode
      simp only [if_pos hn]
    rw [henc]
    have hsplitU : splitOnFirst ucidSep
        (replChar '/' '+' (replChar ':' '+' (scheme ++ ("://").data ++ host))
          ++ ucidSep ++ natToStr n)
        = some (replChar '/' '+' (replChar ':' '+' (scheme ++ ("://").data ++ host)),
                natToStr n) := by
      have := splitOnFirst_boundary '^' (("userContextId=").data) _ (natToStr n) hhatbody
      simpa [ucidSep] using this
    unfold decode
    rw [hsplitU]
    dsimp only
    rw [parseNat_natToStr]
    dsimp only
    rw [hsplit3]
    dsimp only
    by_cases hf : scheme = ("file").data
    · rw [if_pos hf] at hrec
      rw [if_pos (show scheme = ['f', 'i', 'l', 'e'] from hf), hrec]
    · rw [if_neg hf] at hrec
      rw [if_neg (show ¬scheme = ['f', 'i', 'l', 'e'] from hf), hrec]

/-- Witness for C1 at a concrete origin key. -/
theorem C1_codec_roundtrip_witness :
    (':' ∉ (("https").data) ∧ '/' ∉ (("https").data) ∧ '+' ∉ (("https").data) ∧
      '^' ∉ (("https").data) ∧ '+' ∉ (("example.com").data) ∧ '^' ∉ (("example.com").data) ∧
      (some 7 : Option Nat) ≠ some 0) ∧
    decode (encode (("https").data) (("example.com").data) (some 7))
      = some ((("https").data), (("example.com").data), some 7) :=
  ⟨⟨by decide, by decide, by decide, by decide, by decide, by decide, by decide⟩,
    C1_codec_roundtrip (("https").data) (("example.com").data) (some 7)
      (by decide) (by decide) (by decide) (by decide) (by decide) (by decide)
      (fun h => absurd h (by decide)) (fun _ => by decide) (by decide)⟩

/-- C1 counterexample: the claim as stated quantifies over every host, but a
host containing `'+'` does not round-trip — `encode` leaves the `'+'` alone
while `decode` turns it back into `':'`. -/
theorem C1_counterexample :
    decode (encode (("https").data) (("a+b").data) none)
      ≠ some ((("https").data), (("a+b").data), none) := by
  decide

/-- The container-id suffix appended by `encode` (lines 442-443). -/
def ctxSuffix : Option Nat → Str
  | some n => if n ≠ 0 then ucidSep ++ natToStr n else []
  | none => []

/-- C3 (amended): `encode` returns `"<scheme>+++<host-enc>"` followed by the
container suffix, where the host encoding replaces BOTH `':'` and `'/'` by
`'+'` for every scheme (not `'/'` only for `file` and `':'` only otherwise,
as claimed); the suffix `"^userContextId=<id>"` is appended exactly when the
container id is present and non-zero, and the two concrete examples of the
claim hold. -/
theorem C3_encode_shape :
    (∀ scheme host cid, ':' ∉ scheme → '/' ∉ scheme →
      encode scheme host cid =
        scheme ++ ('+' :: ("++").data) ++ replChar '/' '+' (replChar ':' '+' host)
          ++ ctxSuffix cid)
    ∧ encode (("https").data) (("example.com").data) none = ("https+++example.com").data
    ∧ encode (("https").data) (("example.com").data) (some 7)
        = ("https+++example.com^userContextId=7").data := by
  refine ⟨?_, by decide, by decide⟩
  intro scheme host cid h1 h2
  have hbody := encode_body scheme host h1 h2
  cases cid with
  | none =>
    show replChar '/' '+' (replChar ':' '+' (scheme ++ ("://").data ++ host)) = _
    rw [hbody]
    simp [ctxSuffix]
  | some n =>
    by_cases hn : n ≠ 0
    · have : encode scheme host (some n)
          = replChar '/' '+' (replChar ':' '+' (scheme ++ ("://").data ++ host))
            ++ ucidSep ++ natToStr n := by
        unfold encode; simp only [if_pos hn]
      rw [this, hbody]
      simp [ctxSuffix, hn, List.append_assoc]
    · have : encode scheme host (some n)
          = replChar '/' '+' (replChar ':' '+' (scheme ++ ("://").data ++ host)) := by
        unfold encode; simp only [if_neg hn]
      rw [this, hbody]
      simp [ctxSuffix, hn]

/-- Witness for C3 at a concrete scheme and host. -/
theorem C3_encode_shape_witness :
    (':' ∉ (("https").data) ∧ '/' ∉ (("https").data)) ∧
    encode (("https").data) (("a.b").data) (some 3)
      = ("https").data ++ ('+' :: ("++").data)
        ++ replChar '/' '+' (replChar ':' '+' (("a.b").data)) ++ ctxSuffix (some 3) :=
  ⟨⟨by decide, by decide⟩,
    C3_encode_shape.1 (("https").data) (("a.b").data) (some 3) (by decide) (by decide)⟩

/-- C3 counterexample: the claim says that for a non-`file` scheme only `':'`
is replaced in the host, but the program also replaces `'/'`. -/
theorem C3_counterexample :
    encode (("https").data) (("a/b").data) none = ("https+++a+b").data
      ∧ ("https+++a+b").data ≠ ("https+++a/b").data := by
  constructor
  · decide
  · decide

/-! ## JSON values and Python primitives used by the resolvers -/

/-- JSON values as Python's `json` module materialises them.  Floating-point
numbers do not occur in the data the resolvers consume and are not
modelled. -/
inductive Json where
  | null : Json
  | bool (b : Bool) : Json
  | num (n : Int) : Json
  | str (s : Str) : Json
  | arr (elems : List Json) : Json
  | obj (fields : List (Str × Json)) : Json

/-- The Python exception kinds the resolver code can raise or catch. -/
inductive PyErr where
  | keyError (k : Str)
  | typeError
  | valueError
  | indexError
  | attributeError
  deriving DecidableEq

/-- First-match lookup in a JSON object's field list (Python `dict` lookups;
`json` deduplicates keys while parsing, so first-match is exact here). -/
def lookupField : List (Str × Json) → Str → Option Json
  | [], _ => none
  | (k, v) :: rest, key => if k = key then some v else lookupField rest key

/-- Python `d[k]` on a JSON value: `KeyError` when the key is missing,
`TypeError` when the value is not an object (e.g. list indices demand
integers). -/
def pyGetItem : Json → Str → Except PyErr Json
  | Json.obj fields, k =>
    match lookupField fields k with
    | some v => Except.ok v
    | none => Except.error (PyErr.keyError k)
  | _, _ => Except.error PyErr.typeError

/-- Python `d.get(k)` on a JSON value: `none` when missing, and an
`AttributeError` when the value is not an object at all. -/
def pyDictGet (j : Json) (k : Str) : Except PyErr (Option Json) :=
  match j with
  | Json.obj fields => Except.ok (lookupField fields k)
  | _ => Except.error PyErr.attributeError

/-- Python `int(x)` on a JSON value: numbers pass through, booleans are 0/1,
decimal strings (optionally with a leading minus; the full grammar also
strips whitespace, which the data here never contains) parse, other strings
raise `ValueError`, and non-scalar values raise `TypeError`. -/
def pyInt : Json → Except PyErr Int
  | Json.num n => Except.ok n
  | Json.bool b => Except.ok (if b then 1 else 0)
  | Json.str s =>
    (match s with
    | '-' :: rest =>
      (match parseNat rest with
      | some n => Except.ok (-(n : Int))
      | none => Except.error PyErr.valueError)
    | _ =>
      (match parseNat s with
      | some n => Except.ok ((n : Int))
      | none => Except.error PyErr.valueError))
  | _ => Except.error PyErr.typeError

/-! ## A model of `json.loads` on embedded JSON text

The program re-parses JSON text stored inside preference values
(line 82).  The parser below covers the grammar fragment such values use:
objects, arrays, strings with the common escapes, integers, booleans and
null.  (Floats and `\u` escapes are outside the model.) -/

def lbrace : Char := '\x7b'

def rbrace : Char := '\x7d'

def skipWs : Str → Str :=
  List.dropWhile (fun c => c = ' ' || c = '\n' || c = '\t' || c = '\r')

/-- Parse the body of a JSON string literal after its opening quote,
returning the decoded content and the input after the closing quote. -/
def parseStrBody : Str → Option (Str × Str)
  | [] => none
  | c :: rest =>
    if c = '"' then some ([], rest)
    else if c = '\\' then
      match rest with
      | [] => none
      | e :: rest2 =>
        let esc : Option Char :=
          if e = '"' then some '"' else if e = '\\' then some '\\'
          else if e = '/' then some '/' else if e = 'n' then some '\n'
          else if e = 't' then some '\t' else if e = 'r' then some '\r'
          else if e = 'b' then some (Char.ofNat 8) else if e = 'f' then some (Char.ofNat 12)
          else none
        match esc with
        | some ch =>
          (match parseStrBody rest2 with
          | some (s, r) => some (ch :: s, r)
          | none => none)
        | none => none
    else
      match parseStrBody rest with
      | some (s, r) => some (c :: s, r)
      | none => none

/-- Split a leading run of decimal digits off the input. -/
def splitDigits : Str → Str × Str
  | [] => ([], [])
  | c :: rest =>
    if (parseDigit c).isSome then
      let r := splitDigits rest
      (c :: r.1, r.2)
    else ([], c :: rest)

/-- Is the character one that would continue a number into a float? -/
def floatCont (s : Str) : Bool :=
  match s with
  | c :: _ => c = '.' || c = 'e' || c = 'E'
  | [] => false

/-- Parse a (non-negative) integer literal starting at the input. -/
def parseNumTail (s : Str) : Option (Nat × Str) :=
  let p := splitDigits s
  match parseNat p.1 with
  | some n => if floatCont p.2 then none else some (n, p.2)
  | none => none

/-- Parse a comma-separated list of values ending in `]`, given a parser
`pv` for one value. -/
def parseElemsWith (pv : Str → Option (Json × Str)) : Nat → Str → Option (List Json × Str)
  | 0, _ => none
  | f + 1, s =>
    match pv s with
    | none => none
    | some (v, r) =>
      match skipWs r with
      | ',' :: r2 =>
        (match parseElemsWith pv f r2 with
        | some (l, r3) => some (v :: l, r3)
        | none => none)
      | ']' :: r2 => some ([v], r2)
      | _ => none

/-- Parse a comma-separated list of `"key": value` members ending in the
closing brace, given a parser `pv` for one value. -/
def parseMembersWith (pv : Str → Option (Json × Str)) : Nat → Str → Option (List (Str × Json) × Str)
  | 0, _ => none
  | f + 1, s =>
    match skipWs s with
    | '"' :: rest =>
      (match parseStrBody rest with
      | none => none
      | some (k, r) =>
        match skipWs r with
        | ':' :: r2 =>
          (match pv r2 with
          | none => none
          | some (v, r3) =>
            match skipWs r3 with
            | ',' :: r4 =>
              (match parseMembersWith pv f r4 with
              | some (l, r5) => some ((k, v) :: l, r5)
              | none => none)
            | cb :: r4 => if cb = rbrace then some ([(k, v)], r4) else none
            | [] => none)
        | _ => none)
    | _ => none

/-- Parse one JSON value, returning it and the remaining input. -/
def parseJsonVal : Nat → Str → Option (Json × Str)
  | 0, _ => none
  | f + 1, s =>
    match skipWs s with
    | [] => none
    | c :: rest =>
      if c = '"' then
        match parseStrBody rest with
        | some (st, r) => some (Json.str st, r)
        | none => none
      else if c = lbrace then
        match skipWs rest with
        | cb :: r2 =>
          if cb = rbrace then some (Json.obj [], r2)
          else
            (match parseMembersWith (parseJsonVal f) f rest with
            | some (l, r) => some (Json.obj l, r)
            | none => none)
        | [] => none
      else if c = '[' then
        match skipWs rest with
        | cb :: r2 =>
          if cb = ']' then some (Json.arr [], r2)
          else
            (match parseElemsWith (parseJsonVal f) f rest with
            | some (l, r) => some (Json.arr l, r)
            | none => none)
        | [] => none
      else if c = 't' then
        if startsWith (("rue").data) rest then some (Json.bool true, rest.drop 3) else none
      else if c = 'f' then
        if startsWith (("alse").data) rest then some (Json.bool false, rest.drop 4) else none
      else if c = 'n' then
        if startsWith (("ull").data) rest then some (Json.null, rest.drop 3) else none
      else if c = '-' then
        match parseNumTail rest with
        | some (n, r) => some (Json.num (-(n : Int)), r)
        | none => none
      else if (parseDigit c).isSome then
        match parseNumTail (c :: rest) with
        | some (n, r) => some (Json.num ((n : Int)), r)
        | none => none
      else none

/-- Python `json.loads` on an embedded JSON text (for the grammar fragment
described above): parse one value and require only whitespace to follow;
`none` is a `ValueError`. -/
def parseJson (s : Str) : Option Json :=
  match parseJsonVal (2 * s.length + 2) s with
  | some (v, r) =>
    (match skipWs r with
    | [] => some v
    | _ => none)
  | none => none

/-! ## Container resolvers (lines 29, 53-75, 96-104 of __init__.py) -/

def USER_CONTEXT_WEB_EXT : Str := ("userContextIdInternal.webextStorageLocal").data

/-- Name synthesis for schema version 4 (lines 64-67): the segment of
`l10nID` before the first `'.'`; a leading `"userContext"` is stripped and
the character after it lower-cased — `name[11]` raises `IndexError` when
the segment is exactly `"userContext"`. -/
def deriveName4 (l : Str) : Except PyErr Str :=
  let seg := l.takeWhile (fun c => c != '.')
  if startsWith (("userContext").data) seg then
    match seg.drop 11 with
    | [] => Except.error PyErr.indexError
    | c :: rest => Except.ok (c.toLower :: rest)
  else Except.ok seg

/-- Name synthesis for schema version 5 (lines 69-70):
`l10nId.removeprefix("user-context-")`. -/
def deriveName5 (l : Str) : Str :=
  if startsWith (("user-context-").data) l then l.drop 13 else l

/-- One iteration of the loop at lines 60-72: resolve the identity's name
(the explicit `name` field when present and non-null, otherwise synthesised
from the localisation id per schema version) and its numeric id.  Called
only with version 4 or 5 (the assert at line 58 guards the loop). -/
def processIdentity (version : Nat) (identity : Json) : Except PyErr (Int × Json) :=
  match pyDictGet identity (("name").data) with
  | Except.error e => Except.error e
  | Except.ok nameOpt =>
    let name? : Except PyErr Json :=
      match nameOpt with
      | some Json.null | none =>
        if version = 4 then
          match pyGetItem identity (("l10nID").data) with
          | Except.error e => Except.error e
          | Except.ok (Json.str l) =>
            (match deriveName4 l with
            | Except.ok s => Except.ok (Json.str s)
            | Except.error e => Except.error e)
          | Except.ok _ => Except.error PyErr.attributeError
        else
          match pyGetItem identity (("l10nId").data) with
          | Except.error e => Except.error e
          | Except.ok (Json.str l) => Except.ok (Json.str (deriveName5 l))
          | Except.ok _ => Except.error PyErr.attributeError
      | some v => Except.ok v
    match name? with
    | Except.error e => Except.error e
    | Except.ok name =>
      match pyGetItem identity (("userContextId").data) with
      | Except.error e => Except.error e
      | Except.ok v =>
        match pyInt v with
        | Except.ok n => Except.ok (n, name)
        | Except.error e => Except.error e

/-- The generator loop over `data["identities"]`: entries yielded so far,
plus the exception (if any) escaping the generator.  A `ValueError`
(non-numeric `userContextId` string) is caught by line 73 and ends the
iteration cleanly; every other exception propagates. -/
def processIdentities (version : Nat) : List Json → List (Int × Json) × Option PyErr
  | [] => ([], none)
  | id1 :: rest =>
    match processIdentity version id1 with
    | Except.ok p =>
      let r := processIdentities version rest
      (p :: r.1, r.2)
    | Except.error PyErr.valueError => ([], none)
    | Except.error e => ([], some e)

/-- The `identities` part of `read_user_contexts`: fetch `data["identities"]`
and iterate it.  Iterating a non-array also fails in Python (directly with a
`TypeError`, or with an `AttributeError` on the first element for
strings/objects); the model reports `TypeError`. -/
def readIdentities (data : Json) (version : Nat) : List (Int × Json) × Option PyErr :=
  match pyGetItem data (("identities").data) with
  | Except.error e => ([], some e)
  | Except.ok (Json.arr ids) => processIdentities version ids
  | Except.ok _ => ([], some PyErr.typeError)

/-- `read_user_contexts` (lines 53-75).  The input is the parsed content of
`containers.json`; `none` models both a missing file (`FileNotFoundError`)
and unparseable JSON (`ValueError` from `json.load`), which line 73 catches
identically, yielding nothing.  The result pairs the entries the generator
yields with the exception, if any, that escapes it: `AssertionError`,
`FileNotFoundError` and `ValueError` are caught (ending iteration cleanly,
with a diagnostic on stderr), every other exception propagates to the
caller. -/
def readUserContexts (file : Option Json) : List (Int × Json) × Option PyErr :=
  match file with
  | none => ([], none)
  | some data =>
    match pyGetItem data (("version").data) with
    | Except.error e => ([], some e)
    | Except.ok v =>
      match v with
      | Json.num n =>
        if n = 4 then readIdentities data 4
        else if n = 5 then readIdentities data 5
        else ([], none)
      | _ => ([], none)

/-- First entry whose name compares equal to the requested name (a Python
`==` between a JSON value and a string is only true for that string). -/
def scanCtxName : List (Int × Json) → Str → Option Int
  | [], _ => none
  | (cid, n) :: rest, name =>
    match n with
    | Json.str s => if s = name then some cid else scanCtxName rest name
    | _ => scanCtxName rest name

/-- `find_context_id_by_name` (lines 96-104): scan the generator; a match
found before any generator failure is returned; a failure before a match
propagates; after a clean scan without match, the reserved web-extension
pseudo-container name maps to the sentinel 4294967295 and anything else
raises `KeyError(name)`. -/
def findContextIdByName (file : Option Json) (name : Str) : Except PyErr Int :=
  match scanCtxName (readUserContexts file).1 name with
  | some cid => Except.ok cid
  | none =>
    match (readUserContexts file).2 with
    | some e => Except.error e
    | none =>
      if name = USER_CONTEXT_WEB_EXT then Except.ok 4294967295
      else Except.error (PyErr.keyError name)

/-- The preference name holding the extension-UUID map (line 80). -/
def UUID_PREF_NAME : Str := ("extensions.webextensions.uuids").data

/-- `find_uuid_by_ext_id` (lines 78-85), over the already-parsed preference
entries the `read_user_prefs` generator yields: scan for entries named
`"extensions.webextensions.uuids"`; re-parse the entry's string value as
JSON (a `ValueError` is caught and the scan continues; `json.loads` of a
non-string raises `TypeError`, and `.get` on a parse result that is not an
object raises `AttributeError`); return the parsed map's entry for the
extension id, `none` when absent — also `none` when the scan falls off the
end. -/
def findUuidByExtId : List (Str × Json) → Str → Except PyErr (Option Json)
  | [], _ => Except.ok none
  | (n, v) :: rest, extId =>
    if n = UUID_PREF_NAME then
      match v with
      | Json.str s =>
        (match parseJson s with
        | some (Json.obj fields) => Except.ok (lookupField fields extId)
        | some _ => Except.error PyErr.attributeError
        | none => findUuidByExtId rest extId)
      | _ => Except.error PyErr.typeError
    else findUuidByExtId rest extId

/-! ## Resolver theorems -/

/-- A `containers.json` whose single identity has neither a `name` nor the
`l10nID` field the version-4 synthesis reads. -/
def containersMissingL10n : Json :=
  Json.obj [((("version").data), Json.num 4),
            ((("identities").data), Json.arr [Json.obj [((("userContextId").data), Json.num 1)]])]

/-- A `containers.json` with one good identity followed by one whose
`userContextId` is a non-numeric string (`int()` raises `ValueError`). -/
def containersValueErr : Json :=
  Json.obj [((("version").data), Json.num 4),
            ((("identities").data), Json.arr
              [Json.obj [((("name").data), Json.str (("work").data)),
                         ((("userContextId").data), Json.num 1)],
               Json.obj [((("name").data), Json.str (("x").data)),
                         ((("userContextId").data), Json.str (("zzz").data))]])]

/-- C5 (amended): `read_user_contexts` does not raise for the failure kinds
its handler catches — a missing or unparseable file and a version other
than 4/5 yield the empty sequence, and a `ValueError` from a non-numeric
`userContextId` ends the iteration cleanly after the entries already
yielded; but (see the counterexample) an identity missing the fields the
name synthesis reads raises an uncaught `KeyError` instead of being skipped
with a diagnostic. -/
theorem C5_parse_failures :
    readUserContexts none = ([], none)
    ∧ (∀ j v, pyGetItem j (("version").data) = Except.ok v →
        v ≠ Json.num 4 → v ≠ Json.num 5 → readUserContexts (some j) = ([], none))
    ∧ readUserContexts (some containersValueErr) = ([(1, Json.str (("work").data))], none) := by
  refine ⟨rfl, ?_, rfl⟩
  intro j v hv h4 h5
  unfold readUserContexts
  dsimp only
  rw [hv]
  cases v with
  | num n =>
    have hn4 : n ≠ 4 := fun h => h4 (by rw [h])
    have hn5 : n ≠ 5 := fun h => h5 (by rw [h])
    simp [hn4, hn5]
  | null => rfl
  | bool b => rfl
  | str s => rfl
  | arr l => rfl
  | obj f => rfl

/-- Witness for C5 at a version-3 container file. -/
theorem C5_parse_failures_witness :
    (pyGetItem (Json.obj [((("version").data), Json.num 3)]) (("version").data)
        = Except.ok (Json.num 3)
      ∧ Json.num 3 ≠ Json.num 4 ∧ Json.num 3 ≠ Json.num 5) ∧
    readUserContexts (some (Json.obj [((("version").data), Json.num 3)])) = ([], none) :=
  ⟨⟨rfl, by simp, by simp⟩,
    C5_parse_failures.2.1 (Json.obj [((("version").data), Json.num 3)]) (Json.num 3)
      rfl (by simp) (by simp)⟩

/-- C5 counterexample: on a parseable file whose identity lacks `l10nID`,
an uncaught `KeyError` escapes the generator — the claim's promise that any
parse failure degrades to the empty sequence (with bad entries skipped)
does not hold. -/
theorem C5_counterexample :
    (readUserContexts (some containersMissingL10n)).2
      = some (PyErr.keyError (("l10nID").data)) := rfl

/-- C7 (amended): version-4 name synthesis takes the segment of `l10nID`
before the first `'.'`, strips a leading `"userContext"` and lower-cases
the following character — provided such a character exists (a segment of
exactly `"userContext"` raises `IndexError`, see the counterexample);
version-5 synthesis removes a leading `"user-context-"` from `l10nId`; and
the two concrete derivations claimed hold end-to-end. -/
theorem C7_name_derivation :
    (∀ l c rest, startsWith (("userContext").data) (l.takeWhile (fun ch => ch != '.')) = true →
        (l.takeWhile (fun ch => ch != '.')).drop 11 = c :: rest →
        deriveName4 l = Except.ok (c.toLower :: rest))
    ∧ (∀ l, startsWith (("userContext").data) (l.takeWhile (fun ch => ch != '.')) = false →
        deriveName4 l = Except.ok (l.takeWhile (fun ch => ch != '.')))
    ∧ (∀ s, deriveName5 ((("user-context-").data) ++ s) = s)
    ∧ processIdentity 4 (Json.obj [((("l10nID").data), Json.str (("userContextPersonal.label").data)),
        ((("userContextId").data), Json.num 1)]) = Except.ok (1, Json.str (("personal").data))
    ∧ processIdentity 5 (Json.obj [((("l10nId").data), Json.str (("user-context-personal").data)),
        ((("userContextId").data), Json.num 2)]) = Except.ok (2, Json.str (("personal").data)) := by
  refine ⟨?_, ?_, ?_, rfl, rfl⟩
  · intro l c rest h1 h2
    unfold deriveName4
    rw [if_pos h1, h2]
  · intro l h1
    unfold deriveName4
    rw [if_neg (by rw [h1]; exact Bool.false_ne_true)]
  · intro s
    unfold deriveName5
    rw [if_pos (startsWith_append_self (("user-context-").data) s)]
    exact drop_length_append (("user-context-").data) s

/-- Witness for C7 on the claim's own version-4 example. -/
theorem C7_name_derivation_witness :
    (startsWith (("userContext").data)
        ((("userContextPersonal.label").data).takeWhile (fun ch => ch != '.')) = true
      ∧ ((("userContextPersonal.label").data).takeWhile (fun ch => ch != '.')).drop 11
          = 'P' :: ("ersonal").data) ∧
    deriveName4 (("userContextPersonal.label").data)
      = Except.ok ('P'.toLower :: ("ersonal").data) :=
  ⟨⟨by decide, by decide⟩,
    C7_name_derivation.1 (("userContextPersonal.label").data) 'P' (("ersonal").data)
      (by decide) (by decide)⟩

/-- C7 counterexample: an identity whose `l10nID` segment is exactly
`"userContext"` makes the code raise `IndexError` (`name[11]` is out of
range) instead of producing a name, so the claim does not hold for every
identity without an explicit name. -/
theorem C7_counterexample :
    processIdentity 4 (Json.obj [((("l10nID").data), Json.str (("userContext.label").data)),
        ((("userContextId").data), Json.num 1)]) = Except.error PyErr.indexError := rfl

theorem scanCtxName_mem :
    ∀ (items : List (Int × Json)) (name : Str) (cid : Int),
      scanCtxName items name = some cid → (cid, Json.str name) ∈ items := by
  intro items name
  induction items with
  | nil => intro cid h; simp [scanCtxName] at h
  | cons p rest ih =>
    intro cid h
    obtain ⟨c, n⟩ := p
    cases n with
    | str s =>
      by_cases hs : s = name
      · subst hs
        simp only [scanCtxName, if_true] at h
        simp only [Option.some.injEq] at h
        subst h
        exact List.mem_cons_self _ _
      · simp only [scanCtxName, if_neg hs] at h
        exact List.mem_cons_of_mem _ (ih cid h)
    | null => exact List.mem_cons_of_mem _ (ih cid (by simpa [scanCtxName] using h))
    | bool b => exact List.mem_cons_of_mem _ (ih cid (by simpa [scanCtxName] using h))
    | num m => exact List.mem_cons_of_mem _ (ih cid (by simpa [scanCtxName] using h))
    | arr l => exact List.mem_cons_of_mem _ (ih cid (by simpa [scanCtxName] using h))
    | obj f => exact List.mem_cons_of_mem _ (ih cid (by simpa [scanCtxName] using h))

theorem scanCtxName_isSome :
    ∀ (items : List (Int × Json)) (name : Str),
      (∃ p ∈ items, p.2 = Json.str name) → (scanCtxName items name).isSome := by
  intro items name
  induction items with
  | nil => rintro ⟨p, hp, _⟩; simp at hp
  | cons q rest ih =>
    rintro ⟨p, hp, hval⟩
    obtain ⟨c, n⟩ := q
    rcases List.mem_cons.mp hp with hhead | htail
    · subst hhead
      simp only at hval
      subst hval
      simp [scanCtxName]
    · cases n with
      | str s =>
        by_cases hs : s = name
        · simp [scanCtxName, hs]
        · simpa [scanCtxName, hs] using ih ⟨p, htail, hval⟩
      | null => simpa [scanCtxName] using ih ⟨p, htail, hval⟩
      | bool b => simpa [scanCtxName] using ih ⟨p, htail, hval⟩
      | num m => simpa [scanCtxName] using ih ⟨p, htail, hval⟩
      | arr l => simpa [scanCtxName] using ih ⟨p, htail, hval⟩
      | obj f => simpa [scanCtxName] using ih ⟨p, htail, hval⟩

/-- C8 (amended): provided iterating the container file raises nothing
(no exception escapes the generator), `find_context_id_by_name` returns the
id of a container whose name matches, the sentinel 4294967295 for the
reserved web-extension pseudo-container name when nothing matches, and
`KeyError(name)` otherwise.  (On a file whose iteration raises, that
exception propagates instead — see the counterexample.) -/
theorem C8_find_context_id (file : Option Json) (name : Str)
    (hclean : (readUserContexts file).2 = none) :
    (∀ cid, findContextIdByName file name = Except.ok cid →
        (cid, Json.str name) ∈ (readUserContexts file).1
          ∨ (name = USER_CONTEXT_WEB_EXT ∧ cid = 4294967295))
    ∧ ((∃ p ∈ (readUserContexts file).1, p.2 = Json.str name) →
        ∃ cid, findContextIdByName file name = Except.ok cid)
    ∧ (scanCtxName (readUserContexts file).1 name = none → name = USER_CONTEXT_WEB_EXT →
        findContextIdByName file name = Except.ok 4294967295)
    ∧ (scanCtxName (readUserContexts file).1 name = none → name ≠ USER_CONTEXT_WEB_EXT →
        findContextIdByName file name = Except.error (PyErr.keyError name)) := by
  refine ⟨?_, ?_, ?_, ?_⟩
  · intro cid h
    unfold findContextIdByName at h
    cases hscan : scanCtxName (readUserContexts file).1 name with
    | some c =>
      rw [hscan] at h
      simp only [Except.ok.injEq] at h
      subst h
      exact Or.inl (scanCtxName_mem _ _ _ hscan)
    | none =>
      rw [hscan, hclean] at h
      by_cases hname : name = USER_CONTEXT_WEB_EXT
      · rw [if_pos hname] at h
        simp only [Except.ok.injEq] at h
        exact Or.inr ⟨hname, h.symm⟩
      · rw [if_neg hname] at h
        exact absurd h (by simp)
  · intro hex
    have := scanCtxName_isSome _ _ hex
    cases hscan : scanCtxName (readUserContexts file).1 name with
    | none => rw [hscan] at this; simp at this
    | some c =>
      refine ⟨c, ?_⟩
      unfold findContextIdByName
      rw [hscan]
  · intro hscan hname
    unfold findContextIdByName
    rw [hscan, hclean, if_pos hname]
  · intro hscan hname
    unfold findContextIdByName
    rw [hscan, hclean, if_neg hname]

/-- A well-formed version-5 container file with a single named identity. -/
def containersGood : Json :=
  Json.obj [((("version").data), Json.num 5),
            ((("identities").data), Json.arr
              [Json.obj [((("name").data), Json.str (("work").data)),
                         ((("userContextId").data), Json.num 1)]])]

/-- Witness for C8: an unmatched ordinary name raises `KeyError(name)`. -/
theorem C8_find_context_id_witness :
    ((readUserContexts (some containersGood)).2 = none
      ∧ scanCtxName (readUserContexts (some containersGood)).1 (("missing").data) = none
      ∧ (("missing").data : Str) ≠ USER_CONTEXT_WEB_EXT) ∧
    findContextIdByName (some containersGood) (("missing").data)
      = Except.error (PyErr.keyError (("missing").data)) :=
  ⟨⟨rfl, rfl, by decide⟩,
    (C8_find_context_id (some containersGood) (("missing").data) rfl).2.2.2 rfl (by decide)⟩

/-- C8 counterexample: on a container file whose iteration raises, the
failure surfaces as `KeyError("l10nID")` — not as the claimed
`NotFound`-style `KeyError` carrying the looked-up name. -/
theorem C8_counterexample :
    findContextIdByName (some containersMissingL10n) (("foo").data)
        = Except.error (PyErr.keyError (("l10nID").data))
      ∧ (("foo").data : Str) ≠ ("l10nID").data := ⟨rfl, by decide⟩

/-- The uuid-map preference value used in the C10 examples. -/
def uuidsGoodJson : Str := ("\x7b\"ext@example.com\": \"uuid-1\"\x7d").data

/-- C10 (amended): the scan skips entries with other names and entries
named `"extensions.webextensions.uuids"` whose string value fails to parse
as JSON; the first such entry whose string value parses to a JSON object
decides the result (returning the map's entry for the extension id, or
`none` when absent) regardless of any later entries; falling off the end
yields `none`.  However — unlike the claim's "entries whose value fails to
parse are skipped" — an entry whose value is not a string raises
`TypeError` (and a string parsing to a non-object raises
`AttributeError`) instead of continuing the scan. -/
theorem C10_find_uuid_scan :
    (∀ e, findUuidByExtId [] e = Except.ok none)
    ∧ (∀ n v rest e, n ≠ UUID_PREF_NAME →
        findUuidByExtId ((n, v) :: rest) e = findUuidByExtId rest e)
    ∧ (∀ s rest e, parseJson s = none →
        findUuidByExtId ((UUID_PREF_NAME, Json.str s) :: rest) e = findUuidByExtId rest e)
    ∧ (∀ s fields rest e, parseJson s = some (Json.obj fields) →
        findUuidByExtId ((UUID_PREF_NAME, Json.str s) :: rest) e
          = Except.ok (lookupField fields e))
    ∧ (∀ v rest e, (∀ s, v ≠ Json.str s) →
        findUuidByExtId ((UUID_PREF_NAME, v) :: rest) e = Except.error PyErr.typeError) := by
  refine ⟨fun e => rfl, ?_, ?_, ?_, ?_⟩
  · intro n v rest e hne
    simp only [findUuidByExtId]
    rw [if_neg hne]
  · intro s rest e hp
    simp only [findUuidByExtId]
    rw [if_pos trivial, hp]
  · intro s fields rest e hp
    simp only [findUuidByExtId]
    rw [if_pos trivial, hp]
  · intro v rest e hv
    cases v with
    | str s => exact absurd rfl (hv s)
    | null => simp only [findUuidByExtId]; rw [if_pos trivial]
    | bool b => simp only [findUuidByExtId]; rw [if_pos trivial]
    | num m => simp only [findUuidByExtId]; rw [if_pos trivial]
    | arr l => simp only [findUuidByExtId]; rw [if_pos trivial]
    | obj f => simp only [findUuidByExtId]; rw [if_pos trivial]

/-- Witness for C10: the uuid map entry decides the lookup. -/
theorem C10_find_uuid_scan_witness :
    parseJson uuidsGoodJson
        = some (Json.obj [((("ext@example.com").data), Json.str (("uuid-1").data))]) ∧
    findUuidByExtId [(UUID_PREF_NAME, Json.str uuidsGoodJson)] (("ext@example.com").data)
      = Except.ok (lookupField [((("ext@example.com").data), Json.str (("uuid-1").data))]
          (("ext@example.com").data)) :=
  ⟨rfl,
    C10_find_uuid_scan.2.2.2.1 uuidsGoodJson
      [((("ext@example.com").data), Json.str (("uuid-1").data))] [] (("ext@example.com").data)
      rfl⟩

/-- C10 counterexample: a same-named entry whose value is a number makes the
scan raise `TypeError` instead of skipping it, even though a later entry
would have decided the lookup. -/
theorem C10_counterexample :
    findUuidByExtId [(UUID_PREF_NAME, Json.num 5), (UUID_PREF_NAME, Json.str uuidsGoodJson)]
        (("ext@example.com").data) = Except.error PyErr.typeError
      ∧ findUuidByExtId [(UUID_PREF_NAME, Json.str uuidsGoodJson)] (("ext@example.com").data)
          = Except.ok (some (Json.str (("uuid-1").data))) := ⟨rfl, rfl⟩

/-! ## The cycle-safe structured pretty printer (lines 142-253 of __init__.py) -/

/-- The builtin scalars `_safe_repr` hands to `json.dumps` (lines 150-154,
223-224).  `bytes`, `bytearray`, `float` and `complex` do not occur in the
rendered data and are not modelled. -/
inductive Scalar where
  | str (s : Str)
  | int (n : Int)
  | bool (b : Bool)
  | none
  deriving DecidableEq

/-- One Python object of the value graph being printed.  Objects are
identified by their index into a heap (Python `id()`); containers hold
references.  `dict` and `wrapper` (the `IDBObjectWrapper` projection) both
carry key/value reference pairs in iteration order; `other` stands for any
object rendered through its `repr` (lines 220-221). -/
inductive Node where
  | scalar (v : Scalar)
  | notimpl
  | dict (items : List (Nat × Nat))
  | wrapper (items : List (Nat × Nat))
  | list (elems : List Nat)
  | tuple (elems : List Nat)
  | other (rep : Str)
  deriving DecidableEq

abbrev Heap := List Node

/-- Fetch the object behind a reference.  A dangling reference — which a
real Python heap cannot produce — is treated as an opaque object. -/
def nodeAt (h : Heap) (i : Nat) : Node :=
  (h.get? i).getD (Node.other (("<dangling>").data))

/-- `type(object).__name__`, as used by `_recursion` (line 228). -/
def typeName : Node → Str
  | Node.scalar (Scalar.str _) => ("str").data
  | Node.scalar (Scalar.int _) => ("int").data
  | Node.scalar (Scalar.bool _) => ("bool").data
  | Node.scalar Scalar.none => ("NoneType").data
  | Node.notimpl => ("NotImplementedType").data
  | Node.dict _ => ("dict").data
  | Node.wrapper _ => ("IDBObjectWrapper").data
  | Node.list _ => ("list").data
  | Node.tuple _ => ("tuple").data
  | Node.other _ => ("object").data

def hexDigitChar (n : Nat) : Char :=
  if n < 10 then digitChar n
  else if n = 10 then 'a' else if n = 11 then 'b' else if n = 12 then 'c'
  else if n = 13 then 'd' else if n = 14 then 'e' else 'f'

/-- JSON string escaping as `json.dumps(…, ensure_ascii=False)` performs
it: quote and backslash escaped, the common control characters by their
short escapes, remaining control characters as `\u00XX`, everything else
literal. -/
def jsonEscapeChar (c : Char) : Str :=
  if c = '"' then ['\\', '"']
  else if c = '\\' then ['\\', '\\']
  else if c = '\n' then ['\\', 'n']
  else if c = '\t' then ['\\', 't']
  else if c = '\r' then ['\\', 'r']
  else if c = Char.ofNat 8 then ['\\', 'b']
  else if c = Char.ofNat 12 then ['\\', 'f']
  else if c.toNat < 32 then
    ['\\', 'u', '0', '0', hexDigitChar (c.toNat / 16), hexDigitChar (c.toNat % 16)]
  else [c]

def intToStr (n : Int) : Str :=
  if n < 0 then '-' :: natToStr n.natAbs else natToStr n.natAbs

/-- `json.dumps` on one scalar (line 154): JSON string literals, decimal
integers, lowercase booleans and `null`. -/
def jsonDumps : Scalar → Str
  | Scalar.str s => '"' :: (s.flatMap jsonEscapeChar) ++ [('"' : Char)]
  | Scalar.int n => intToStr n
  | Scalar.bool b => if b then ("true").data else ("false").data
  | Scalar.none => ("null").data

/-- The marker `_recursion` builds (lines 226-228). -/
def recursionStr (tn : Str) (i : Nat) : Str :=
  ("<Recursion on ").data ++ tn ++ (" with id=").data ++ natToStr i ++ ((">").data)

/-- Lexicographic comparison of strings by code point (Python `str <`). -/
def strLt : Str → Str → Bool
  | [], [] => false
  | [], _ :: _ => true
  | _ :: _, [] => false
  | a :: as, b :: bs =>
    if a.toNat < b.toNat then true
    else if b.toNat < a.toNat then false
    else strLt as bs

/-- Python `a < b` between two of the modelled scalars, where defined:
numbers and booleans compare numerically, strings lexicographically; every
other pairing (including `None` with anything) raises `TypeError`,
modelled as `none`. -/
def pyLtScalar : Scalar → Scalar → Option Bool
  | Scalar.int a, Scalar.int b => some (decide (a < b))
  | Scalar.int a, Scalar.bool b => some (decide (a < (if b then 1 else 0)))
  | Scalar.bool a, Scalar.int b => some (decide ((if a then (1 : Int) else 0) < b))
  | Scalar.bool a, Scalar.bool b =>
    some (decide ((if a then (1 : Int) else 0) < (if b then 1 else 0)))
  | Scalar.str a, Scalar.str b => some (strLt a b)
  | _, _ => none

/-- Python `a < b` on two references: only scalar pairs of compatible kinds
are orderable; everything else raises `TypeError` (`none`).  (Python also
orders some container pairs elementwise; dictionary keys are hashable
scalars, for which this fragment is exact.) -/
def pyLt (h : Heap) (a b : Nat) : Option Bool :=
  match nodeAt h a, nodeAt h b with
  | Node.scalar x, Node.scalar y => pyLtScalar x y
  | _, _ => none

/-- `str(type(obj))`, the first component of the fallback sort key
(lines 248-249). -/
def typeStr (n : Node) : Str := ("<class '").data ++ typeName n ++ ("'>").data

/-- `_safe_key.__lt__` (lines 244-249) on two references: try the value
comparison, and on `TypeError` fall back to comparing
`(str(type), id)` lexicographically. -/
def safeKeyLt (h : Heap) (a b : Nat) : Bool :=
  match pyLt h a b with
  | some r => r
  | none =>
    if strLt (typeStr (nodeAt h a)) (typeStr (nodeAt h b)) then true
    else if strLt (typeStr (nodeAt h b)) (typeStr (nodeAt h a)) then false
    else decide (a < b)

/-- Stable insertion into an already-sorted list: `x` goes after every
element strictly below it and before the first that is not. -/
def insertKey (lt : (Nat × Nat) → (Nat × Nat) → Bool) (x : Nat × Nat) :
    List (Nat × Nat) → List (Nat × Nat)
  | [] => [x]
  | y :: rest => if lt y x then y :: insertKey lt x rest else x :: y :: rest

/-- `sorted(object.items(), key=_safe_tuple)` (line 174), as a stable sort
by `_safe_key` on the key reference.  (`_safe_tuple` wraps key and value,
but the freshly allocated `_safe_key` wrappers never compare equal, so the
tuple comparison always decides on the keys alone.) -/
def sortPairs (h : Heap) : List (Nat × Nat) → List (Nat × Nat)
  | [] => []
  | x :: rest => insertKey (fun p q => safeKeyLt h p.1 q.1) x (sortPairs h rest)

/-- Render the key/value pairs of a mapping (the loop at lines 177-183):
the `"k: v"` components plus the accumulated readable/recursive flags. -/
def seqPairs (f : Nat → Option (Str × Bool × Bool)) :
    List (Nat × Nat) → Option (List Str × Bool × Bool)
  | [] => some ([], true, false)
  | (k, v) :: rest =>
    match f k, f v, seqPairs f rest with
    | some (kr, krd, krc), some (vr, vrd, vrc), some (comps, rd, rc) =>
      some ((kr ++ ((": ").data) ++ vr) :: comps, krd && vrd && rd, krc || vrc || rc)
    | _, _, _ => none

/-- Render the elements of a sequence (the loop at lines 210-216). -/
def seqElems (f : Nat → Option (Str × Bool × Bool)) :
    List Nat → Option (List Str × Bool × Bool)
  | [] => some ([], true, false)
  | x :: rest =>
    match f x, seqElems f rest with
    | some (xr, xrd, xrc), some (comps, rd, rc) =>
      some (xr :: comps, xrd && rd, xrc || rc)
    | _, _ => none

/-- The mapping branch of `_safe_repr` (lines 158-185), shared by `dict`
and the `IDBObjectWrapper` projection: emptiness first, then the depth
limit, then the recursion check, then the (optionally sorted) items. -/
def reprMapWith (f : Nat → Option (Str × Bool × Bool)) (h : Heap) (ctx : List Nat)
    (ml lvl : Nat) (sd : Bool) (i : Nat) (tn : Str) (items : List (Nat × Nat)) :
    Option (Str × Bool × Bool) :=
  if items = [] then some ([lbrace, rbrace], true, false)
  else if ml ≠ 0 ∧ ml ≤ lvl then
    some (lbrace :: ("...").data ++ [rbrace], false, decide (i ∈ ctx))
  else if i ∈ ctx then some (recursionStr tn i, false, true)
  else
    match seqPairs f (if sd then sortPairs h items else items) with
    | some (comps, rd, rc) =>
      some (lbrace :: joinSep ((", ").data) comps ++ [rbrace], rd, rc)
    | none => none

/-- The sequence branch of `_safe_repr` (lines 199-218) after the per-type
format and emptiness handling: depth limit, recursion check, elements. -/
def reprSeqWith (f : Nat → Option (Str × Bool × Bool)) (ctx : List Nat)
    (ml lvl : Nat) (i : Nat) (tn : Str) (fmt : Str → Str) (elems : List Nat) :
    Option (Str × Bool × Bool) :=
  if ml ≠ 0 ∧ ml ≤ lvl then some (fmt (("...").data), false, decide (i ∈ ctx))
  else if i ∈ ctx then some (recursionStr tn i, false, true)
  else
    match seqElems f elems with
    | some (comps, rd, rc) => some (fmt (joinSep ((", ").data) comps), rd, rc)
    | none => none

def fmtList (s : Str) : Str := '[' :: s ++ (("]").data)

def fmtTuple1 (s : Str) : Str := '(' :: s ++ ((",)").data)

def fmtTuple (s : Str) : Str := '(' :: s ++ ((")").data)

/-- `_safe_repr` (lines 142-221) with explicit fuel standing for the call
stack.  `ctx` is the "currently rendering" identity set (added before
descending, removed on return — here by passing `i :: ctx` only to the
children), `ml` the depth limit (`0` is the falsy "no limit"), `lvl` the
current level, `sd` the sort flag; the result is
`(repr, readable, recursive)`.  One unit of fuel is consumed per nesting
level; `safeRepr` below supplies enough for any input, and
`C2_printer_cycle_safe` proves that this suffices. -/
def safeReprF (fuel : Nat) (h : Heap) (ctx : List Nat) (ml lvl : Nat) (sd : Bool)
    (i : Nat) : Option (Str × Bool × Bool) :=
  match fuel with
  | 0 => none
  | fuel' + 1 =>
    match nodeAt h i with
    | Node.notimpl => some (("undefined").data, true, false)
    | Node.scalar v => some (jsonDumps v, true, false)
    | Node.dict items =>
      reprMapWith (fun j => safeReprF fuel' h (i :: ctx) ml (lvl + 1) sd j)
        h ctx ml lvl sd i (("dict").data) items
    | Node.wrapper items =>
      reprMapWith (fun j => safeReprF fuel' h (i :: ctx) ml (lvl + 1) sd j)
        h ctx ml lvl sd i (("IDBObjectWrapper").data) items
    | Node.list elems =>
      if elems = [] then some (("[]").data, true, false)
      else
        reprSeqWith (fun j => safeReprF fuel' h (i :: ctx) ml (lvl + 1) sd j)
          ctx ml lvl i (("list").data) fmtList elems
    | Node.tuple elems =>
      if elems.length = 1 then
        reprSeqWith (fun j => safeReprF fuel' h (i :: ctx) ml (lvl + 1) sd j)
          ctx ml lvl i (("tuple").data) fmtTuple1 elems
      else if elems = [] then some (("()").data, true, false)
      else
        reprSeqWith (fun j => safeReprF fuel' h (i :: ctx) ml (lvl + 1) sd j)
          ctx ml lvl i (("tuple").data) fmtTuple elems
    | Node.other rep =>
      some (rep, decide (rep ≠ [] ∧ rep.head? ≠ some '<'), false)

/-- The number of heap objects not currently being rendered: an upper bound
on the remaining nesting depth, since every descent moves a fresh valid id
into the context. -/
def freeCount (h : Heap) (ctx : List Nat) : Nat :=
  ((Finset.range h.length).filter (fun j => j ∉ ctx)).card

/-- The total `_safe_repr`: `freeCount h ctx + 1` units of fuel always
suffice (theorem `C2_printer_cycle_safe`). -/
def safeRepr (h : Heap) (ctx : List Nat) (ml lvl : Nat) (sd : Bool) (i : Nat) :
    Option (Str × Bool × Bool) :=
  safeReprF (freeCount h ctx + 1) h ctx ml lvl sd i

/-- References held by one object. -/
def nodeRefs : Node → List Nat
  | Node.dict items => items.map Prod.fst ++ items.map Prod.snd
  | Node.wrapper items => items.map Prod.fst ++ items.map Prod.snd
  | Node.list elems => elems
  | Node.tuple elems => elems
  | _ => []

/-- All references held by any object of the heap. -/
def heapRefs (h : Heap) : List Nat := (h.map nodeRefs).flatten

/-! ### Printer lemmas: sorting, termination -/

theorem insertKey_perm (lt : (Nat × Nat) → (Nat × Nat) → Bool) (x : Nat × Nat) :
    ∀ l : List (Nat × Nat), (insertKey lt x l).Perm (x :: l) := by
  intro l
  induction l with
  | nil => exact List.Perm.refl _
  | cons y rest ih =>
    unfold insertKey
    by_cases hlt : lt y x
    · rw [if_pos hlt]
      exact (ih.cons y).trans (List.Perm.swap x y rest)
    · rw [if_neg hlt]

theorem sortPairs_perm (h : Heap) :
    ∀ items : List (Nat × Nat), (sortPairs h items).Perm items := by
  intro items
  induction items with
  | nil => exact List.Perm.refl _
  | cons x rest ih =>
    unfold sortPairs
    exact (insertKey_perm _ x (sortPairs h rest)).trans (ih.cons x)

theorem mem_of_mem_sorted {h : Heap} {sd : Bool} {items : List (Nat × Nat)}
    {p : Nat × Nat} (hp : p ∈ (if sd then sortPairs h items else items)) : p ∈ items := by
  cases sd with
  | false => simpa using hp
  | true => exact ((sortPairs_perm h items).mem_iff).mp (by simpa using hp)

theorem seqPairs_isSome (f : Nat → Option (Str × Bool × Bool)) :
    ∀ items : List (Nat × Nat),
      (∀ p ∈ items, (f p.1).isSome ∧ (f p.2).isSome) → (seqPairs f items).isSome := by
  intro items
  induction items with
  | nil => intro _; rfl
  | cons p rest ih =>
    intro hf
    obtain ⟨k, v⟩ := p
    obtain ⟨h1, h2⟩ := hf (k, v) (List.mem_cons_self _ _)
    obtain ⟨⟨kr, krd, krc⟩, hk⟩ := Option.isSome_iff_exists.mp h1
    obtain ⟨⟨vr, vrd, vrc⟩, hv⟩ := Option.isSome_iff_exists.mp h2
    obtain ⟨⟨comps, rd, rc⟩, hr⟩ :=
      Option.isSome_iff_exists.mp (ih (fun q hq => hf q (List.mem_cons_of_mem _ hq)))
    simp [seqPairs, hk, hv, hr]

theorem seqElems_isSome (f : Nat → Option (Str × Bool × Bool)) :
    ∀ elems : List Nat,
      (∀ x ∈ elems, (f x).isSome) → (seqElems f elems).isSome := by
  intro elems
  induction elems with
  | nil => intro _; rfl
  | cons x rest ih =>
    intro hf
    obtain ⟨⟨xr, xrd, xrc⟩, hx⟩ :=
      Option.isSome_iff_exists.mp (hf x (List.mem_cons_self _ _))
    obtain ⟨⟨comps, rd, rc⟩, hr⟩ :=
      Option.isSome_iff_exists.mp (ih (fun y hy => hf y (List.mem_cons_of_mem _ hy)))
    simp [seqElems, hx, hr]

theorem freeCount_cons_lt (h : Heap) (ctx : List Nat) (i : Nat)
    (hi : i < h.length) (hctx : i ∉ ctx) : freeCount h (i :: ctx) < freeCount h ctx := by
  apply Finset.card_lt_card
  rw [Finset.ssubset_def]
  constructor
  · intro j hj
    simp only [Finset.mem_filter, Finset.mem_range, List.mem_cons] at hj ⊢
    exact ⟨hj.1, fun hm => hj.2 (Or.inr hm)⟩
  · intro hsub
    have hi' : i ∈ (Finset.range h.length).filter (fun j => j ∉ ctx) := by
      simp only [Finset.mem_filter, Finset.mem_range]
      exact ⟨hi, hctx⟩
    have hmem := hsub hi'
    simp only [Finset.mem_filter, Finset.mem_range, List.mem_cons] at hmem
    exact hmem.2 (Or.inl trivial)

theorem lt_length_of_nodeAt {h : Heap} {i : Nat} {n : Node}
    (hn : nodeAt h i = n) (hno : ∀ rep, n ≠ Node.other rep) : i < h.length := by
  by_contra hge
  have hnone : h.get? i = none := List.get?_eq_none.mpr (le_of_not_lt hge)
  unfold nodeAt at hn
  rw [hnone] at hn
  exact hno _ hn.symm

theorem get?_of_nodeAt {h : Heap} {i : Nat} {n : Node}
    (hn : nodeAt h i = n) (hno : ∀ rep, n ≠ Node.other rep) : h.get? i = some n := by
  unfold nodeAt at hn
  cases hg : h.get? i with
  | none => rw [hg] at hn; exact absurd hn.symm (hno _)
  | some m => rw [hg] at hn; simpa using hn

theorem nodeRefs_sub_heapRefs {h : Heap} {i : Nat} {n : Node}
    (hn : nodeAt h i = n) (hno : ∀ rep, n ≠ Node.other rep) :
    ∀ j, j ∈ nodeRefs n → j ∈ heapRefs h := by
  intro j hj
  have hmem : n ∈ h := List.get?_mem (get?_of_nodeAt hn hno)
  unfold heapRefs
  rw [List.mem_flatten]
  exact ⟨nodeRefs n, List.mem_map_of_mem _ hmem, hj⟩

theorem reprMapWith_isSome (f : Nat → Option (Str × Bool × Bool)) (h : Heap)
    (ctx : List Nat) (ml lvl : Nat) (sd : Bool) (i : Nat) (tn : Str)
    (items : List (Nat × Nat))
    (hf : i ∉ ctx → ∀ p ∈ (if sd then sortPairs h items else items),
        (f p.1).isSome ∧ (f p.2).isSome) :
    (reprMapWith f h ctx ml lvl sd i tn items).isSome := by
  unfold reprMapWith
  by_cases h0 : items = []
  · rw [if_pos h0]; rfl
  · rw [if_neg h0]
    by_cases hdl : ml ≠ 0 ∧ ml ≤ lvl
    · rw [if_pos hdl]; rfl
    · rw [if_neg hdl]
      by_cases hin : i ∈ ctx
      · rw [if_pos hin]; rfl
      · rw [if_neg hin]
        obtain ⟨⟨comps, rd, rc⟩, hr⟩ :=
          Option.isSome_iff_exists.mp (seqPairs_isSome f _ (hf hin))
        rw [hr]
        rfl

theorem reprSeqWith_isSome (f : Nat → Option (Str × Bool × Bool)) (ctx : List Nat)
    (ml lvl : Nat) (i : Nat) (tn : Str) (fmt : Str → Str) (elems : List Nat)
    (hf : i ∉ ctx → ∀ x ∈ elems, (f x).isSome) :
    (reprSeqWith f ctx ml lvl i tn fmt elems).isSome := by
  unfold reprSeqWith
  by_cases hdl : ml ≠ 0 ∧ ml ≤ lvl
  · rw [if_pos hdl]; rfl
  · rw [if_neg hdl]
    by_cases hin : i ∈ ctx
    · rw [if_pos hin]; rfl
    · rw [if_neg hin]
      obtain ⟨⟨comps, rd, rc⟩, hr⟩ :=
        Option.isSome_iff_exists.mp (seqElems_isSome f _ (hf hin))
      rw [hr]
      rfl

theorem safeReprF_isSome :
    ∀ (fuel : Nat) (h : Heap) (ctx : List Nat) (ml lvl : Nat) (sd : Bool) (i : Nat),
      freeCount h ctx < fuel → (safeReprF fuel h ctx ml lvl sd i).isSome := by
  intro fuel
  induction fuel with
  | zero => intro h ctx ml lvl sd i hlt; omega
  | succ fuel ih =>
    intro h ctx ml lvl sd i hlt
    cases hn : nodeAt h i with
    | notimpl => simp [safeReprF, hn]
    | scalar v => simp [safeReprF, hn]
    | other rep => simp [safeReprF, hn]
    | dict items =>
      simp only [safeReprF, hn]
      apply reprMapWith_isSome
      intro hnotin p hp
      have hi : i < h.length :=
        lt_length_of_nodeAt hn (fun rep h' => Node.noConfusion h')
      have hfc : freeCount h (i :: ctx) < fuel := by
        have := freeCount_cons_lt h ctx i hi hnotin
        omega
      exact ⟨ih h (i :: ctx) ml (lvl + 1) sd p.1 hfc, ih h (i :: ctx) ml (lvl + 1) sd p.2 hfc⟩
    | wrapper items =>
      simp only [safeReprF, hn]
      apply reprMapWith_isSome
      intro hnotin p hp
      have hi : i < h.length :=
        lt_length_of_nodeAt hn (fun rep h' => Node.noConfusion h')
      have hfc : freeCount h (i :: ctx) < fuel := by
        have := freeCount_cons_lt h ctx i hi hnotin
        omega
      exact ⟨ih h (i :: ctx) ml (lvl + 1) sd p.1 hfc, ih h (i :: ctx) ml (lvl + 1) sd p.2 hfc⟩
    | list elems =>
      simp only [safeReprF, hn]
      by_cases h0 : elems = []
      · rw [if_pos h0]; rfl
      · rw [if_neg h0]
        apply reprSeqWith_isSome
        intro hnotin x hx
        have hi : i < h.length :=
          lt_length_of_nodeAt hn (fun rep h' => Node.noConfusion h')
        have hfc : freeCount h (i :: ctx) < fuel := by
          have := freeCount_cons_lt h ctx i hi hnotin
          omega
        exact ih h (i :: ctx) ml (lvl + 1) sd x hfc
    | tuple elems =>
      simp only [safeReprF, hn]
      have hi : i < h.length :=
        lt_length_of_nodeAt hn (fun rep h' => Node.noConfusion h')
      by_cases h1 : elems.length = 1
      · rw [if_pos h1]
        apply reprSeqWith_isSome
        intro hnotin x hx
        have hfc : freeCount h (i :: ctx) < fuel := by
          have := freeCount_cons_lt h ctx i hi hnotin
          omega
        exact ih h (i :: ctx) ml (lvl + 1) sd x hfc
      · rw [if_neg h1]
        by_cases h0 : elems = []
        · rw [if_pos h0]; rfl
        · rw [if_neg h0]
          apply reprSeqWith_isSome
          intro hnotin x hx
          have hfc : freeCount h (i :: ctx) < fuel := by
            have := freeCount_cons_lt h ctx i hi hnotin
            omega
          exact ih h (i :: ctx) ml (lvl + 1) sd x hfc

/-! ### Printer lemmas: the context only matters on reachable identities -/

theorem seqPairs_congr (f g : Nat → Option (Str × Bool × Bool)) :
    ∀ items : List (Nat × Nat),
      (∀ p ∈ items, f p.1 = g p.1 ∧ f p.2 = g p.2) →
      seqPairs f items = seqPairs g items := by
  intro items
  induction items with
  | nil => intro _; rfl
  | cons p rest ih =>
    intro hf
    obtain ⟨k, v⟩ := p
    obtain ⟨h1, h2⟩ := hf (k, v) (List.mem_cons_self _ _)
    have h1' : f k = g k := h1
    have h2' : f v = g v := h2
    simp only [seqPairs]
    rw [h1', h2', ih (fun q hq => hf q (List.mem_cons_of_mem _ hq))]

theorem seqElems_congr (f g : Nat → Option (Str × Bool × Bool)) :
    ∀ elems : List Nat,
      (∀ x ∈ elems, f x = g x) → seqElems f elems = seqElems g elems := by
  intro elems
  induction elems with
  | nil => intro _; rfl
  | cons x rest ih =>
    intro hf
    simp only [seqElems]
    rw [hf x (List.mem_cons_self _ _), ih (fun y hy => hf y (List.mem_cons_of_mem _ hy))]

theorem reprMapWith_congr (f g : Nat → Option (Str × Bool × Bool)) (h : Heap)
    (ctx1 ctx2 : List Nat) (ml lvl : Nat) (sd : Bool) (i1 i2 : Nat) (tn1 tn2 : Str)
    (items : List (Nat × Nat))
    (hiff : (i1 ∈ ctx1) ↔ (i2 ∈ ctx2))
    (hrec : i1 ∈ ctx1 → recursionStr tn1 i1 = recursionStr tn2 i2)
    (hfg : i1 ∉ ctx1 → ∀ p ∈ (if sd then sortPairs h items else items),
        f p.1 = g p.1 ∧ f p.2 = g p.2) :
    reprMapWith f h ctx1 ml lvl sd i1 tn1 items
      = reprMapWith g h ctx2 ml lvl sd i2 tn2 items := by
  unfold reprMapWith
  by_cases h0 : items = []
  · rw [if_pos h0, if_pos h0]
  · rw [if_neg h0, if_neg h0]
    by_cases hdl : ml ≠ 0 ∧ ml ≤ lvl
    · rw [if_pos hdl, if_pos hdl, decide_eq_decide.mpr hiff]
    · rw [if_neg hdl, if_neg hdl]
      by_cases hin : i1 ∈ ctx1
      · rw [if_pos hin, if_pos (hiff.mp hin), hrec hin]
      · rw [if_neg hin, if_neg (fun hm => hin (hiff.mpr hm))]
        rw [seqPairs_congr f g _ (hfg hin)]

theorem reprSeqWith_congr (f g : Nat → Option (Str × Bool × Bool))
    (ctx1 ctx2 : List Nat) (ml lvl : Nat) (i1 i2 : Nat) (tn1 tn2 : Str)
    (fmt : Str → Str) (elems : List Nat)
    (hiff : (i1 ∈ ctx1) ↔ (i2 ∈ ctx2))
    (hrec : i1 ∈ ctx1 → recursionStr tn1 i1 = recursionStr tn2 i2)
    (hfg : i1 ∉ ctx1 → ∀ x ∈ elems, f x = g x) :
    reprSeqWith f ctx1 ml lvl i1 tn1 fmt elems
      = reprSeqWith g ctx2 ml lvl i2 tn2 fmt elems := by
  unfold reprSeqWith
  by_cases hdl : ml ≠ 0 ∧ ml ≤ lvl
  · rw [if_pos hdl, if_pos hdl, decide_eq_decide.mpr hiff]
  · rw [if_neg hdl, if_neg hdl]
    by_cases hin : i1 ∈ ctx1
    · rw [if_pos hin, if_pos (hiff.mp hin), hrec hin]
    · rw [if_neg hin, if_neg (fun hm => hin (hiff.mpr hm))]
      rw [seqElems_congr f g _ (hfg hin)]

/-- Rendering only consults the context on the rendered identity itself and
on identities some heap object references: two contexts agreeing there
render identically. -/
theorem safeReprF_ctx_congr :
    ∀ (fuel : Nat) (h : Heap) (ctx1 ctx2 : List Nat) (ml lvl : Nat) (sd : Bool) (i : Nat),
      (∀ x, x ∈ heapRefs h → ((x ∈ ctx1) ↔ (x ∈ ctx2))) →
      ((i ∈ ctx1) ↔ (i ∈ ctx2)) →
      safeReprF fuel h ctx1 ml lvl sd i = safeReprF fuel h ctx2 ml lvl sd i := by
  intro fuel
  induction fuel with
  | zero => intro _ _ _ _ _ _ _ _ _; rfl
  | succ fuel ih =>
    intro h ctx1 ctx2 ml lvl sd i hrefs hiff
    have hrefs' : ∀ x, x ∈ heapRefs h → ((x ∈ i :: ctx1) ↔ (x ∈ i :: ctx2)) := by
      intro x hx
      simp only [List.mem_cons]
      exact or_congr Iff.rfl (hrefs x hx)
    cases hn : nodeAt h i with
    | notimpl => simp [safeReprF, hn]
    | scalar v => simp [safeReprF, hn]
    | other rep => simp [safeReprF, hn]
    | dict items =>
      simp only [safeReprF, hn]
      apply reprMapWith_congr
      · exact hiff
      · intro _; rfl
      · intro _ p hp
        have hp' : p ∈ items := mem_of_mem_sorted hp
        have hk : p.1 ∈ heapRefs h := by
          apply nodeRefs_sub_heapRefs hn (fun _ h' => Node.noConfusion h')
          simp only [nodeRefs, List.mem_append, List.mem_map]
          exact Or.inl ⟨p, hp', rfl⟩
        have hv : p.2 ∈ heapRefs h := by
          apply nodeRefs_sub_heapRefs hn (fun _ h' => Node.noConfusion h')
          simp only [nodeRefs, List.mem_append, List.mem_map]
          exact Or.inr ⟨p, hp', rfl⟩
        exact ⟨ih h _ _ ml (lvl + 1) sd p.1 hrefs' (hrefs' p.1 hk),
               ih h _ _ ml (lvl + 1) sd p.2 hrefs' (hrefs' p.2 hv)⟩
    | wrapper items =>
      simp only [safeReprF, hn]
      apply reprMapWith_congr
      · exact hiff
      · intro _; rfl
      · intro _ p hp
        have hp' : p ∈ items := mem_of_mem_sorted hp
        have hk : p.1 ∈ heapRefs h := by
          apply nodeRefs_sub_heapRefs hn (fun _ h' => Node.noConfusion h')
          simp only [nodeRefs, List.mem_append, List.mem_map]
          exact Or.inl ⟨p, hp', rfl⟩
        have hv : p.2 ∈ heapRefs h := by
          apply nodeRefs_sub_heapRefs hn (fun _ h' => Node.noConfusion h')
          simp only [nodeRefs, List.mem_append, List.mem_map]
          exact Or.inr ⟨p, hp', rfl⟩
        exact ⟨ih h _ _ ml (lvl + 1) sd p.1 hrefs' (hrefs' p.1 hk),
               ih h _ _ ml (lvl + 1) sd p.2 hrefs' (hrefs' p.2 hv)⟩
    | list elems =>
      simp only [safeReprF, hn]
      by_cases h0 : elems = []
      · rw [if_pos h0, if_pos h0]
      · rw [if_neg h0, if_neg h0]
        apply reprSeqWith_congr
        · exact hiff
        · intro _; rfl
        · intro _ x hx
          have hxr : x ∈ heapRefs h :=
            nodeRefs_sub_heapRefs hn (fun _ h' => Node.noConfusion h') x hx
          exact ih h _ _ ml (lvl + 1) sd x hrefs' (hrefs' x hxr)
    | tuple elems =>
      simp only [safeReprF, hn]
      by_cases h1 : elems.length = 1
      · rw [if_pos h1, if_pos h1]
        apply reprSeqWith_congr
        · exact hiff
        · intro _; rfl
        · intro _ x hx
          have hxr : x ∈ heapRefs h :=
            nodeRefs_sub_heapRefs hn (fun _ h' => Node.noConfusion h') x hx
          exact ih h _ _ ml (lvl + 1) sd x hrefs' (hrefs' x hxr)
      · rw [if_neg h1, if_neg h1]
        by_cases h0 : elems = []
        · rw [if_pos h0, if_pos h0]
        · rw [if_neg h0, if_neg h0]
          apply reprSeqWith_congr
          · exact hiff
          · intro _; rfl
          · intro _ x hx
            have hxr : x ∈ heapRefs h :=
              nodeRefs_sub_heapRefs hn (fun _ h' => Node.noConfusion h') x hx
            exact ih h _ _ ml (lvl + 1) sd x hrefs' (hrefs' x hxr)

/-! ### Printer theorems -/

/-- A self-referential dictionary: object 0 is `d = \x7b"k": d\x7d`. -/
def cycHeap : Heap := [Node.dict [(1, 0)], Node.scalar (Scalar.str (("k").data))]

/-- A dictionary shared through two non-overlapping paths:
object 0 is `[d, d]` with `d = \x7b"a": 1\x7d`. -/
def sharedHeap : Heap :=
  [Node.list [1, 1], Node.dict [(2, 3)], Node.scalar (Scalar.str (("a").data)),
   Node.scalar (Scalar.int 1)]

/-- C2: the printer terminates on every heap, however self-referential (the
fuel `freeCount h ctx + 1` supplied by `safeRepr` always suffices); an
object reached while it is still being rendered short-circuits to exactly
the `<Recursion on <type> with id=<identity>>` marker, flagged unreadable
and recursive; the concrete cyclic dictionary renders with exactly one
marker, and an object shared via two non-overlapping paths renders fully at
both occurrences because the identity is removed from the context on
return. -/
theorem C2_printer_cycle_safe :
    (∀ (h : Heap) (ctx : List Nat) (ml lvl : Nat) (sd : Bool) (i : Nat),
        (safeRepr h ctx ml lvl sd i).isSome)
    ∧ (∀ (h : Heap) (ctx : List Nat) (ml lvl : Nat) (sd : Bool) (i : Nat)
          (items : List (Nat × Nat)),
        nodeAt h i = Node.dict items → items ≠ [] → ¬(ml ≠ 0 ∧ ml ≤ lvl) → i ∈ ctx →
        safeRepr h ctx ml lvl sd i = some (recursionStr (("dict").data) i, false, true))
    ∧ safeRepr cycHeap [] 0 0 false 0
        = some ((("\x7b\"k\": <Recursion on dict with id=0>\x7d").data), false, true)
    ∧ safeRepr sharedHeap [] 0 0 false 0
        = some ((("[\x7b\"a\": 1\x7d, \x7b\"a\": 1\x7d]").data), true, false) := by
  refine ⟨?_, ?_, by decide, by decide⟩
  · intro h ctx ml lvl sd i
    unfold safeRepr
    exact safeReprF_isSome _ h ctx ml lvl sd i (Nat.lt_succ_self _)
  · intro h ctx ml lvl sd i items hn hne hdl hin
    unfold safeRepr
    simp only [safeReprF, hn]
    unfold reprMapWith
    rw [if_neg hne, if_neg hdl, if_pos hin]

/-- Witness for C2: the recursion-marker branch at a concrete heap. -/
theorem C2_printer_cycle_safe_witness :
    (nodeAt cycHeap 0 = Node.dict [(1, 0)] ∧ ([(1, 0)] : List (Nat × Nat)) ≠ []
      ∧ ¬((0 : Nat) ≠ 0 ∧ 0 ≤ 0) ∧ (0 : Nat) ∈ [0]) ∧
    safeRepr cycHeap [0] 0 0 false 0
      = some (recursionStr (("dict").data) 0, false, true) :=
  ⟨⟨rfl, by decide, by decide, by decide⟩,
    C2_printer_cycle_safe.2.1 cycHeap [0] 0 0 false 0 [(1, 0)] rfl (by decide)
      (by decide) (by decide)⟩

/-- C9: empty mappings, sequences and tuples render as their two-character
forms regardless of the depth limit, the current level and the recursion
context, because `_safe_repr` tests emptiness before the depth-limit and
recursion checks. -/
theorem C9_empty_containers (h : Heap) (ctx : List Nat) (ml lvl : Nat) (sd : Bool)
    (i : Nat) :
    (nodeAt h i = Node.dict [] →
        safeRepr h ctx ml lvl sd i = some ([lbrace, rbrace], true, false))
    ∧ (nodeAt h i = Node.wrapper [] →
        safeRepr h ctx ml lvl sd i = some ([lbrace, rbrace], true, false))
    ∧ (nodeAt h i = Node.list [] →
        safeRepr h ctx ml lvl sd i = some ((("[]").data), true, false))
    ∧ (nodeAt h i = Node.tuple [] →
        safeRepr h ctx ml lvl sd i = some ((("()").data), true, false)) := by
  refine ⟨?_, ?_, ?_, ?_⟩ <;> intro hn <;>
    simp [safeRepr, safeReprF, hn, reprMapWith]

/-- Witness for C9: an empty dict inside an exhausted depth limit and with
its own identity already in the context still renders as braces. -/
theorem C9_empty_containers_witness :
    nodeAt [Node.dict []] 0 = Node.dict [] ∧
    safeRepr [Node.dict []] [0] 1 5 true 0 = some ([lbrace, rbrace], true, false) :=
  ⟨rfl, (C9_empty_containers [Node.dict []] [0] 1 5 true 0).1 rfl⟩

/-- C6: a Projection (`IDBObjectWrapper`) whose backing store yields the
same key/value pairs as a literal dict renders to exactly the same text and
flags, for any sort flag, depth limit and context — provided neither
container is itself referenced from the rendered data (their identities
differ, so a self-reference would print a different `id=`). -/
theorem C6_projection_prints_like_dict (h : Heap) (ctx : List Nat) (ml lvl : Nat)
    (sd : Bool) (iw idd : Nat) (items : List (Nat × Nat))
    (hw : nodeAt h iw = Node.wrapper items) (hd : nodeAt h idd = Node.dict items)
    (hwctx : iw ∉ ctx) (hdctx : idd ∉ ctx)
    (hwref : iw ∉ heapRefs h) (hdref : idd ∉ heapRefs h) :
    safeRepr h ctx ml lvl sd iw = safeRepr h ctx ml lvl sd idd := by
  unfold safeRepr
  simp only [safeReprF, hw, hd]
  have hrefs' : ∀ x, x ∈ heapRefs h → ((x ∈ iw :: ctx) ↔ (x ∈ idd :: ctx)) := by
    intro x hx
    have hxw : x ≠ iw := fun he => hwref (he ▸ hx)
    have hxd : x ≠ idd := fun he => hdref (he ▸ hx)
    simp [List.mem_cons, hxw, hxd]
  apply reprMapWith_congr
  · exact ⟨fun hm => absurd hm hwctx, fun hm => absurd hm hdctx⟩
  · intro hm; exact absurd hm hwctx
  · intro _ p hp
    have hp' : p ∈ items := mem_of_mem_sorted hp
    have hk : p.1 ∈ heapRefs h := by
      apply nodeRefs_sub_heapRefs hw (fun _ h' => Node.noConfusion h')
      simp only [nodeRefs, List.mem_append, List.mem_map]
      exact Or.inl ⟨p, hp', rfl⟩
    have hv : p.2 ∈ heapRefs h := by
      apply nodeRefs_sub_heapRefs hw (fun _ h' => Node.noConfusion h')
      simp only [nodeRefs, List.mem_append, List.mem_map]
      exact Or.inr ⟨p, hp', rfl⟩
    exact ⟨safeReprF_ctx_congr _ h _ _ ml (lvl + 1) sd p.1 hrefs' (hrefs' p.1 hk),
           safeReprF_ctx_congr _ h _ _ ml (lvl + 1) sd p.2 hrefs' (hrefs' p.2 hv)⟩

/-- A heap holding the same items once behind the projection wrapper and
once as a literal dict. -/
def c6Heap : Heap :=
  [Node.wrapper [(2, 3)], Node.dict [(2, 3)],
   Node.scalar (Scalar.str (("k").data)), Node.scalar (Scalar.int 1)]

/-- Witness for C6 at a concrete store. -/
theorem C6_projection_prints_like_dict_witness :
    (nodeAt c6Heap 0 = Node.wrapper [(2, 3)] ∧ nodeAt c6Heap 1 = Node.dict [(2, 3)]
      ∧ (0 : Nat) ∉ ([] : List Nat) ∧ (1 : Nat) ∉ ([] : List Nat)
      ∧ (0 : Nat) ∉ heapRefs c6Heap ∧ (1 : Nat) ∉ heapRefs c6Heap) ∧
    safeRepr c6Heap [] 0 0 true 0 = safeRepr c6Heap [] 0 0 true 1 :=
  ⟨⟨rfl, rfl, by decide, by decide, by decide, by decide⟩,
    C6_projection_prints_like_dict c6Heap [] 0 0 true 0 1 [(2, 3)] rfl rfl
      (by decide) (by decide) (by decide) (by decide)⟩

theorem strLt_asymm : ∀ s t : Str, strLt s t = true → strLt t s = false := by
  intro s
  induction s with
  | nil =>
    intro t h
    cases t with
    | nil => exact absurd h (by simp [strLt])
    | cons b bs => rfl
  | cons a as ih =>
    intro t h
    cases t with
    | nil => exact absurd h (by simp [strLt])
    | cons b bs =>
      unfold strLt at h ⊢
      by_cases h1 : a.toNat < b.toNat
      · rw [if_neg (by omega), if_pos h1]
      · rw [if_neg h1] at h
        by_cases h2 : b.toNat < a.toNat
        · rw [if_pos h2] at h
          exact absurd h (by simp)
        · rw [if_neg h2] at h
          rw [if_neg h2, if_neg h1]
          exact ih bs h

theorem pyLtScalar_none_symm : ∀ x y : Scalar, pyLtScalar x y = none → pyLtScalar y x = none := by
  intro x y h
  cases x <;> cases y <;> simp_all [pyLtScalar]

theorem pyLt_none_symm (h : Heap) (a b : Nat) (hn : pyLt h a b = none) :
    pyLt h b a = none := by
  unfold pyLt at hn ⊢
  cases hx : nodeAt h a <;> cases hy : nodeAt h b <;>
    (rw [hx, hy] at hn; try rfl)
  case scalar.scalar x y => exact pyLtScalar_none_symm x y hn

/-- C4: in this embedding the printer is a pure function of the heap, the
flags and the context, so repeated sorted renderings coincide; the fallback
key order on unorderable pairs is total — exactly one direction of
`_safe_key` holds for two distinct identities whose values do not compare —
and sorting permutes the items, so sorted rendering is a deterministic
function of the mapping. -/
theorem C4_sorted_rendering_deterministic :
    (∀ (h : Heap) (ctx : List Nat) (ml lvl : Nat) (i : Nat),
        safeRepr h ctx ml lvl true i = safeRepr h ctx ml lvl true i)
    ∧ (∀ (h : Heap) (a b : Nat), a ≠ b → pyLt h a b = none →
        (safeKeyLt h a b = true ∧ safeKeyLt h b a = false)
          ∨ (safeKeyLt h b a = true ∧ safeKeyLt h a b = false))
    ∧ (∀ (h : Heap) (items : List (Nat × Nat)), (sortPairs h items).Perm items) := by
  refine ⟨fun _ _ _ _ _ => rfl, ?_, sortPairs_perm⟩
  intro h a b hab hnone
  have hnone' := pyLt_none_symm h a b hnone
  cases hab1 : strLt (typeStr (nodeAt h a)) (typeStr (nodeAt h b)) with
  | true =>
    left
    constructor
    · unfold safeKeyLt
      rw [hnone, if_pos hab1]
    · unfold safeKeyLt
      rw [hnone', if_neg (by simp [strLt_asymm _ _ hab1]), if_pos hab1]
  | false =>
    cases hba1 : strLt (typeStr (nodeAt h b)) (typeStr (nodeAt h a)) with
    | true =>
      right
      constructor
      · unfold safeKeyLt
        rw [hnone', if_pos hba1]
      · unfold safeKeyLt
        rw [hnone, if_neg (by simp [hab1]), if_pos hba1]
    | false =>
      rcases Nat.lt_or_ge a b with hlt | hge
      · left
        constructor
        · unfold safeKeyLt
          rw [hnone, if_neg (by simp [hab1]), if_neg (by simp [hba1])]
          exact decide_eq_true hlt
        · unfold safeKeyLt
          rw [hnone', if_neg (by simp [hba1]), if_neg (by simp [hab1])]
          exact decide_eq_false (by omega)
      · have hlt : b < a := by omega
        right
        constructor
        · unfold safeKeyLt
          rw [hnone', if_neg (by simp [hba1]), if_neg (by simp [hab1])]
          exact decide_eq_true hlt
        · unfold safeKeyLt
          rw [hnone, if_neg (by simp [hab1]), if_neg (by simp [hba1])]
          exact decide_eq_false (by omega)

/-- A heap holding two distinct unorderable key objects (`None`). -/
def c4Heap : Heap := [Node.scalar Scalar.none, Node.scalar Scalar.none]

/-- Witness for C4: two `None` keys are unorderable yet totally ordered by
the fallback. -/
theorem C4_sorted_rendering_deterministic_witness :
    ((0 : Nat) ≠ 1 ∧ pyLt c4Heap 0 1 = none) ∧
    ((safeKeyLt c4Heap 0 1 = true ∧ safeKeyLt c4Heap 1 0 = false)
      ∨ (safeKeyLt c4Heap 1 0 = true ∧ safeKeyLt c4Heap 0 1 = false)) :=
  ⟨⟨by decide, rfl⟩,
    C4_sorted_rendering_deterministic.2.1 c4Heap 0 1 (by decide) rfl⟩

end Mze
